import Mathlib

/-!
Verification of the kubeconform Dagger module (`kubeconform/dagger/main.go`)
against its natural-language specification.

The development shallow-embeds the module's pure logic:

* Go string helpers (`strings.Split`, `strings.Trim`, `strings.Join`,
  `path.Base`, `strconv.Itoa`) are modelled by structurally recursive Lean
  functions with identical behaviour on the inputs the module feeds them.
* The URL classification (`isGitRepo`), decomposition (`parseGitURL`) and
  archive probing (`isAnArchive`) are translated line by line; effects of
  `url.Parse` and the network (`http.Get` + `archives.Identify`) enter as
  explicit data (`Option UrlParts`, `ArchiveProbe`).
* The materialization loop (`crdDirs`), the environment-variable loop of
  `kubeConformImage`, and the mounting/ordering logic of `Validate` are
  translated to `Except`-valued functions over those data.
* The embedded bash script `run_kubeconform.sh` is modelled at the level of
  its observable decisions: the per-file validation loop, the construction of
  the kubeconform argument list, the CRD-conversion guard, and the
  `find`-based manifest discovery (with an explicit glob matcher and a
  filesystem tree for the `-path … -prune -o … -name … -type f -print`
  expression).
-/

/-! ### Go string primitives -/

/-- Splitting a character list at every occurrence of `sep`.  This is the
behaviour of Go `strings.Split` for a one-character separator: the result is
never empty, and an empty input yields `[[]]` (Go: `Split("", "/") = [""]`). -/
def splitOnChar (sep : Char) : List Char → List (List Char)
  | [] => [[]]
  | c :: cs =>
    match splitOnChar sep cs with
    | [] => [[]]
    | g :: gs => if c = sep then [] :: g :: gs else (c :: g) :: gs

/-- Models Go `strings.Split(s, sep)` for the one-character separators the
module uses (`"/"` and `":"`). -/
def goSplit (sep : Char) (s : String) : List String :=
  (splitOnChar sep s.data).map String.mk

/-- Models Go `strings.Trim(s, "/")`: remove every leading and trailing
slash. -/
def goTrimSlashes (s : String) : String :=
  String.mk (((s.data.dropWhile (fun c => c = '/')).reverse.dropWhile
    (fun c => c = '/')).reverse)

/-- Models Go `strings.Join(parts, sep)`. -/
def goJoin (sep : String) : List String → String
  | [] => ""
  | [x] => x
  | x :: y :: xs => x ++ sep ++ goJoin sep (y :: xs)

/-- Models Go `path.Base`: the last element of the path after stripping
trailing slashes; `"."` for the empty string, `"/"` for a string of only
slashes.  The module applies it to whole URLs to name a downloaded raw file. -/
def goPathBase (s : String) : String :=
  if s = "" then "."
  else
    let rev := s.data.reverse.dropWhile (fun c => c = '/')
    if rev = [] then "/"
    else String.mk ((rev.takeWhile (fun c => ¬ c = '/')).reverse)

/-! ### `parseGitURL` (main.go lines 98-117)

The Go function parses the URL and then works only on `parsedURL.Path`; the
embedding takes that path directly.  `parts := strings.Split(path, "/")`, so
for an absolute path the component list starts with the empty component before
the first slash: `"/org/repo/tree/main"` splits into
`["", "org", "repo", "tree", "main"]`.  The module counts these split
components (`len(parts) < 5` is the error test), indexes owner, repo and
branch positionally at 1, 2 and 4, and joins the remainder as the
subdirectory. -/

/-- Translation of `parseGitURL` applied to the parsed URL path: clone URL,
branch and subdirectory, or the format error. -/
def parseGitPath (path : String) : Except String (String × String × String) :=
  let parts := goSplit '/' path
  if parts.length < 5 then .error "invalid URL format"
  else
    .ok ("https://github.com/" ++ parts.getD 1 "" ++ "/" ++ parts.getD 2 "" ++ ".git",
      parts.getD 4 "", goJoin "/" (parts.drop 5))

/-! ### The per-file validation loop of `run_kubeconform.sh`

Both branches of the script (kustomize mode and plain mode) run the same
control flow: iterate over the located files in order; on a failed validation
print the failure and `exit 1`; on success continue.  `verdict` abstracts the
external validator invocation (`kubeconform …` possibly behind
`kustomize build` / `flux envsubst`).  The result is the list of files
actually processed and the aggregate outcome (`true` = the loop, and with
`set -e` the script, succeeds). -/

/-- The script's validation loop: processed files in order, and the aggregate
success flag. -/
def runValidation (verdict : String → Bool) : List String → List String × Bool
  | [] => ([], true)
  | f :: fs =>
    if verdict f then
      let r := runValidation verdict fs
      (f :: r.1, r.2)
    else ([f], false)

theorem runValidation_ok_iff (verdict : String → Bool) (files : List String) :
    (runValidation verdict files).2 = true ↔ ∀ f ∈ files, verdict f = true := by
  induction files with
  | nil => simp [runValidation]
  | cons f fs ih =>
    by_cases h : verdict f = true
    · simp [runValidation, h, ih]
    · simp [runValidation, h]

theorem runValidation_stops (verdict : String → Bool) (pre : List String)
    (bad : String) (post : List String) (hpre : ∀ p ∈ pre, verdict p = true)
    (hbad : verdict bad = false) :
    (runValidation verdict (pre ++ bad :: post)).1 = pre ++ [bad] := by
  induction pre with
  | nil => simp [runValidation, hbad]
  | cons p ps ih =>
    have hp : verdict p = true := hpre p (by simp)
    simp only [List.cons_append, runValidation, hp, if_true]
    have := ih (fun q hq => hpre q (by simp [hq]))
    simp [this]

/-- C1: the orchestrator's aggregate result is success iff every per-file
verdict is success, and at the first failing file the loop stops: the
processed list is exactly the successful prefix followed by the failing file,
so no file after it in locator order is processed. -/
theorem c1_orchestrator_fail_fast (verdict : String → Bool) (files : List String) :
    ((runValidation verdict files).2 = true ↔ ∀ f ∈ files, verdict f = true) ∧
    (∀ pre bad post, files = pre ++ bad :: post →
      (∀ p ∈ pre, verdict p = true) → verdict bad = false →
      (runValidation verdict files).1 = pre ++ [bad]) := by
  refine ⟨runValidation_ok_iff verdict files, ?_⟩
  intro pre bad post hsplit hpre hbad
  subst hsplit
  exact runValidation_stops verdict pre bad post hpre hbad

/-- Witness for C1 at a concrete run: three files where the second fails. -/
theorem c1_orchestrator_fail_fast_witness :
    (runValidation (fun f => f != "bad.yaml") ["a.yaml", "bad.yaml", "c.yaml"]).1 =
      ["a.yaml", "bad.yaml"] :=
  (c1_orchestrator_fail_fast (fun f => f != "bad.yaml")
      ["a.yaml", "bad.yaml", "c.yaml"]).2
    ["a.yaml"] "bad.yaml" ["c.yaml"] rfl (by decide) (by decide)

/-- C5: repository URL decomposition.  A path with fewer than five split
components is a format error; otherwise owner, repo, branch and subdirectory
are taken positionally from the component list
`["", owner, repo, "tree", branch, …subdir]` and the clone URL is
`https://github.com/<owner>/<repo>.git`; in particular the path of
`https://github.com/org/repo/tree/main/config/crd` yields clone URL
`https://github.com/org/repo.git`, branch `main`, subdir `config/crd`. -/
theorem c5_parseGitURL_decomposition (path : String) :
    ((goSplit '/' path).length < 5 → parseGitPath path = .error "invalid URL format") ∧
    (∀ a o r t b rest, goSplit '/' path = a :: o :: r :: t :: b :: rest →
      parseGitPath path =
        .ok ("https://github.com/" ++ o ++ "/" ++ r ++ ".git", b, goJoin "/" rest)) ∧
    parseGitPath "/org/repo/tree/main/config/crd" =
      .ok ("https://github.com/org/repo.git", "main", "config/crd") := by
  refine ⟨?_, ?_, rfl⟩
  · intro h
    simp [parseGitPath, h]
  · intro a o r t b rest h
    simp [parseGitPath, h]

/-- Witness for C5: the decomposition theorem applied at the concrete path of
scenario C and at a too-short path. -/
theorem c5_parseGitURL_decomposition_witness :
    parseGitPath "/org/repo/tree/main/config/crd" =
      .ok ("https://github.com/org/repo.git", "main", "config/crd") ∧
    parseGitPath "/org/repo" = .error "invalid URL format" :=
  ⟨(c5_parseGitURL_decomposition "/org/repo/tree/main/config/crd").2.2,
    (c5_parseGitURL_decomposition "/org/repo").1 (by decide)⟩

/-! ### `isGitRepo` (main.go lines 76-95)

The effect of Go `url.Parse` enters as data: `none` models a parse error,
`some u` the parsed URL with its hostname and path.  The function is a pure
test of that result: on the non-matching-host path it returns immediately,
with no network access (the archive probe appears only in `crdDirs`, after a
`false` answer here). -/

/-- A parsed URL as the module consumes it: hostname and path. -/
structure UrlParts where
  host : String
  path : String
deriving DecidableEq

/-- Translation of `isGitRepo`: error on an unparseable URL; `false` for a
foreign host; otherwise split the slash-trimmed path and require at least two
components with the first two non-empty and the third component, when
present, different from "blob" and "releases". -/
def isGitRepo (parsed : Option UrlParts) : Except String Bool :=
  match parsed with
  | none => .error "invalid URL"
  | some u =>
    if u.host ≠ "github.com" then .ok false
    else
      let pathParts := goSplit '/' (goTrimSlashes u.path)
      if 2 ≤ pathParts.length ∧ pathParts.getD 0 "" ≠ "" ∧ pathParts.getD 1 "" ≠ "" then
        if 2 < pathParts.length ∧
            (pathParts.getD 2 "" = "blob" ∨ pathParts.getD 2 "" = "releases") then
          .ok false
        else .ok true
      else .ok false

/-- The Repository condition exactly as claim C6 words it: the URL parses,
its hostname is the known code-hosting domain, its path has at least two
non-empty segments, and a third segment, when present, is neither "blob" nor
"releases". -/
def claimRepositoryCond (parsed : Option UrlParts) : Prop :=
  match parsed with
  | none => False
  | some u =>
    u.host = "github.com" ∧
    2 ≤ ((goSplit '/' (goTrimSlashes u.path)).filter (fun s => s != "")).length ∧
    (2 < (goSplit '/' (goTrimSlashes u.path)).length →
      (goSplit '/' (goTrimSlashes u.path)).getD 2 "" ≠ "blob" ∧
      (goSplit '/' (goTrimSlashes u.path)).getD 2 "" ≠ "releases")

/-- The Repository condition the code actually implements (C6 amended): the
trimmed path splits into at least two components, the first two components
are non-empty, and a third component, when present, is neither "blob" nor
"releases". -/
def amendedRepositoryCond (parsed : Option UrlParts) : Prop :=
  match parsed with
  | none => False
  | some u =>
    u.host = "github.com" ∧
    2 ≤ (goSplit '/' (goTrimSlashes u.path)).length ∧
    (goSplit '/' (goTrimSlashes u.path)).getD 0 "" ≠ "" ∧
    (goSplit '/' (goTrimSlashes u.path)).getD 1 "" ≠ "" ∧
    (2 < (goSplit '/' (goTrimSlashes u.path)).length →
      (goSplit '/' (goTrimSlashes u.path)).getD 2 "" ≠ "blob" ∧
      (goSplit '/' (goTrimSlashes u.path)).getD 2 "" ≠ "releases")

/-- Counterexample to C6 as stated: the parsed URL `https://github.com/a//b`
(host `github.com`, path `/a//b`) has the two non-empty path segments `a` and
`b` and no "blob"/"releases" marker, so the claim's condition holds, yet
`isGitRepo` answers `false` because the second split component of `a//b` is
empty. -/
theorem c6_counterexample :
    claimRepositoryCond (some ⟨"github.com", "/a//b"⟩) ∧
    isGitRepo (some ⟨"github.com", "/a//b"⟩) = .ok false := by
  constructor
  · unfold claimRepositoryCond
    exact ⟨rfl, by decide, fun h => ⟨by decide, by decide⟩⟩
  · rfl

/-- C6 amended: `isGitRepo` answers Repository (`ok true`) iff the URL
parses, the hostname is `github.com`, the slash-trimmed path splits into at
least two components whose first two are non-empty, and a third component,
when present, is neither "blob" nor "releases".  (The test is a pure function
of the parse result: the non-matching-host path involves no network call by
construction.) -/
theorem c6_repository_test (parsed : Option UrlParts) :
    isGitRepo parsed = .ok true ↔ amendedRepositoryCond parsed := by
  cases parsed with
  | none => simp [isGitRepo, amendedRepositoryCond]
  | some u =>
    simp only [isGitRepo, amendedRepositoryCond]
    split_ifs with hh h1 h2
    · constructor
      · intro hc
        exact Bool.noConfusion (Except.ok.inj hc)
      · intro hc
        exact absurd hc.1 hh
    · constructor
      · intro hc
        exact Bool.noConfusion (Except.ok.inj hc)
      · intro hc
        exact absurd h2.2 (not_or.mpr (hc.2.2.2.2 h2.1))
    · push_neg at hh h2
      constructor
      · intro _
        exact ⟨hh, h1.1, h1.2.1, h1.2.2, fun hlen => h2 hlen⟩
      · intro _
        rfl
    · push_neg at hh h1
      constructor
      · intro hc
        exact Bool.noConfusion (Except.ok.inj hc)
      · intro hc
        exact absurd (h1 hc.2.1 hc.2.2.1) hc.2.2.2.1

/-! ### `isAnArchive` (main.go lines 119-142)

The network interaction is data: `get` is the outcome of `http.Get` plus, on
a 200 response, the outcome of `archives.Identify` on the body.  In the
`archives` library a stream matching no known format makes `Identify` return
the error `NoMatch` ("no formats matched"); a successful identification
returns a format value that may or may not implement `Extractor` (pure
compressions such as a bare `.gz` do not). -/

/-- Outcome of `archives.Identify` on a fetched body. -/
inductive IdentifyOutcome where
  | matched (extractor : Bool)
  | noMatch
  | failed (msg : String)
deriving DecidableEq

/-- The observable network behaviour of one URL under the archive probe:
`http.Get` failure, or status code plus identification outcome. -/
structure ArchiveProbe where
  get : Except String (Nat × IdentifyOutcome)

/-- Translation of `isAnArchive`: any `Identify` error — the `NoMatch` error
included — is wrapped and propagated; on success the answer is whether the
identified format is an extractor. -/
def isAnArchive (p : ArchiveProbe) : Except String Bool :=
  match p.get with
  | .error e => .error ("failed to fetch URL: " ++ e)
  | .ok (status, outcome) =>
    if status ≠ 200 then .error "received non-200 status"
    else
      match outcome with
      | .matched extractor => if extractor then .ok true else .ok false
      | .noMatch => .error "failed to identify archive format: no formats matched"
      | .failed e => .error ("failed to identify archive format: " ++ e)

/-- The classification as claim C4 states it: identification success means
Archive, "no format matched" means RawFile, anything else is a propagated
failure. -/
def claimArchiveClassification (p : ArchiveProbe) : Except String Bool :=
  match p.get with
  | .error e => .error ("failed to fetch URL: " ++ e)
  | .ok (status, outcome) =>
    if status ≠ 200 then .error "received non-200 status"
    else
      match outcome with
      | .matched _ => .ok true
      | .noMatch => .ok false
      | .failed e => .error ("failed to identify archive format: " ++ e)

/-- C4 failing input: a URL that fetches with status 200 but whose body
matches no known archive signature (a plain YAML file, say).  The code
propagates the wrapped `NoMatch` error and so aborts the whole run, while the
claim (and the raw-file fallback documented on `crdDirs`) requires the URL to
be classified RawFile (`ok false`). -/
theorem c4_noMatch_aborts :
    isAnArchive ⟨.ok (200, .noMatch)⟩ =
      .error "failed to identify archive format: no formats matched" ∧
    claimArchiveClassification ⟨.ok (200, .noMatch)⟩ = .ok false :=
  ⟨rfl, rfl⟩

/-! ### The CRD conversion guard (`run_kubeconform.sh` lines 315-325)

For every pooled `*.yaml`/`*.yml` file the script runs
`if yq e '.kind == "CustomResourceDefinition"' "$file"; then … openapi2jsonschema.py "$file"; fi`.
The bash `if` tests yq's exit status.  yq's `e` (eval) subcommand prints the
boolean result of the expression but exits 0 whenever evaluation succeeds —
printing `false` still exits 0; only the `-e`/`--exit-status` flag (not used
here) folds the printed value into the exit status.  So the guard passes for
every document yq can parse, whatever its `kind`. -/

/-- A pooled CRD-source document as the conversion loop sees it: its path,
whether yq can evaluate on it, and its top-level `kind` field. -/
structure CrdDoc where
  path : String
  parses : Bool
  kind : Option String
deriving DecidableEq

/-- Exit-status success of the bash guard
`yq e '.kind == "CustomResourceDefinition"' "$file"`: true for every
parseable document, independent of the printed boolean. -/
def yqKindGuardExitOk (d : CrdDoc) : Bool := d.parses

/-- The documents the conversion loop passes to `openapi2jsonschema.py`:
those for which the guard's exit status is 0. -/
def convertedDocs (docs : List CrdDoc) : List CrdDoc :=
  docs.filter yqKindGuardExitOk

/-- The selection claim C3 and the spec describe: exactly the documents whose
top-level `kind` equals `CustomResourceDefinition` are converted; all others
are skipped. -/
def claimConvertedDocs (docs : List CrdDoc) : List CrdDoc :=
  docs.filter (fun d => d.kind == some "CustomResourceDefinition")

/-- C3 failing input: a pooled directory holding one parseable YAML document
of kind `ConfigMap`.  The script's guard passes (yq exits 0 after printing
`false`), so the document is handed to the converter, where the claim says a
non-CRD document is silently skipped and contributes nothing. -/
theorem c3_non_crd_is_converted :
    convertedDocs [⟨"/crds/0/configmap.yaml", true, some "ConfigMap"⟩] =
      [⟨"/crds/0/configmap.yaml", true, some "ConfigMap"⟩] ∧
    claimConvertedDocs [⟨"/crds/0/configmap.yaml", true, some "ConfigMap"⟩] = [] :=
  ⟨rfl, rfl⟩

/-! ### The kubeconform argument list (`run_kubeconform.sh` lines 327-336)

`ARGS` always starts with the default schema location; the Datree catalog
template is appended exactly when the `--catalog` flag was passed.  The local
template's guard is `[ -n "$(find $1 -type f -print -quit)" ]` — but after
the `getopt` loop every invocation the module issues has no positional
parameters left, so `$1` expands to nothing and the probe is
`find -type f -print -quit`, which searches the current working directory
`"."` (the mounted manifests directory `/work`), not `/schemas`. -/

/-- The parts of the script's world the argument construction reads: the
(recursive) file listing of each directory, and the catalog flag. -/
structure ScriptEnv where
  dirFiles : String → List String
  catalog : Bool

/-- The fixed leading kubeconform arguments. -/
def baseArgs : List String :=
  ["-summary", "--strict", "-ignore-missing-schemas", "-schema-location", "default"]

/-- The local schema-location template keyed by Kind and APIVersion. -/
def localSchemaTemplate : String :=
  "/schemas/\x7b\x7b.ResourceKind\x7d\x7d_\x7b\x7b.ResourceAPIVersion\x7d\x7d.json"

/-- The Datree catalog schema-location template. -/
def catalogSchemaTemplate : String :=
  "https://raw.githubusercontent.com/datreeio/CRDs-catalog/main/\x7b\x7b.Group\x7d\x7d/\x7b\x7b.ResourceKind\x7d\x7d_\x7b\x7b.ResourceAPIVersion\x7d\x7d.json"

/-- The argument list the script builds: the local template is appended iff
the probed directory — `"."`, because `$1` is empty — holds a file. -/
def kubeconformArgs (st : ScriptEnv) : List String :=
  baseArgs ++
    (if (st.dirFiles ".").isEmpty then [] else ["--schema-location", localSchemaTemplate]) ++
    (if st.catalog then ["--schema-location", catalogSchemaTemplate] else [])

/-- The schema-location list as claim C2 states it: the local template is
appended iff the pooled converted-schema directory `/schemas` is non-empty. -/
def claimSchemaLocationArgs (st : ScriptEnv) : List String :=
  baseArgs ++
    (if (st.dirFiles "/schemas").isEmpty then []
     else ["--schema-location", localSchemaTemplate]) ++
    (if st.catalog then ["--schema-location", catalogSchemaTemplate] else [])

/-- C2 failing input: no CRDs were supplied (`/schemas` is empty) while the
working directory holds the mounted manifests and the script file itself.
The code appends the local `/schemas/…` template anyway, because its probe
`find $1 -type f -print-quit` ran over the working directory; the claim's
list omits it. -/
theorem c2_local_template_probes_workdir :
    kubeconformArgs
        ⟨fun d => if d = "." then ["app.yaml", "run_kubeconform.sh"] else [], false⟩ =
      baseArgs ++ ["--schema-location", localSchemaTemplate] ∧
    claimSchemaLocationArgs
        ⟨fun d => if d = "." then ["app.yaml", "run_kubeconform.sh"] else [], false⟩ =
      baseArgs :=
  ⟨rfl, rfl⟩

/-! ### Mount paths: `strconv.Itoa` and `fmt.Sprintf("/crds/%s", …)` -/

/-- Fuel-bounded decimal rendering of a natural number, most significant
digit first; `fuel = n + 1` always suffices since the argument shrinks by a
factor of ten each step. -/
def itoaCore : Nat → Nat → List Char
  | 0, _ => []
  | fuel + 1, n =>
    if n < 10 then [Nat.digitChar n]
    else itoaCore fuel (n / 10) ++ [Nat.digitChar (n % 10)]

/-- Models Go `strconv.Itoa` on the (non-negative) mount indices. -/
def itoa (n : Nat) : String := String.mk (itoaCore (n + 1) n)

/-- Reads a decimal rendering back; left inverse of the rendering, used only
to prove injectivity. -/
def unitoa (cs : List Char) : Nat := cs.foldl (fun a c => 10 * a + (c.toNat - 48)) 0

theorem digitChar_toNat : ∀ n < 10, (Nat.digitChar n).toNat = 48 + n := by decide

theorem unitoa_append_digit (cs : List Char) (c : Char) :
    unitoa (cs ++ [c]) = 10 * unitoa cs + (c.toNat - 48) := by
  unfold unitoa
  rw [List.foldl_append]
  rfl

theorem unitoa_itoaCore : ∀ fuel n, n < fuel → unitoa (itoaCore fuel n) = n := by
  intro fuel
  induction fuel with
  | zero => exact fun n h => absurd h (Nat.not_lt_zero n)
  | succ f ih =>
    intro n h
    by_cases h10 : n < 10
    · simp only [itoaCore, h10, if_true]
      show 10 * 0 + ((Nat.digitChar n).toNat - 48) = n
      rw [digitChar_toNat n h10]
      omega
    · simp only [itoaCore, h10, if_false]
      rw [unitoa_append_digit, ih (n / 10) (by omega),
        digitChar_toNat (n % 10) (by omega)]
      omega

theorem itoa_injective : Function.Injective itoa := by
  intro a b h
  have hdata : itoaCore (a + 1) a = itoaCore (b + 1) b := congrArg String.data h
  have ha := unitoa_itoaCore (a + 1) a (Nat.lt_succ_self a)
  have hb := unitoa_itoaCore (b + 1) b (Nat.lt_succ_self b)
  rw [← ha, ← hb, hdata]

/-- The index-qualified mount path `fmt.Sprintf("/crds/%s", strconv.Itoa(idx))`
of `Validate` (main.go line 240). -/
def mountPath (i : Nat) : String := "/crds/" ++ itoa i

theorem mountPath_injective : Function.Injective mountPath := by
  intro a b h
  have hd : "/crds/".data ++ (itoa a).data = "/crds/".data ++ (itoa b).data := by
    have := congrArg String.data h
    simpa [mountPath, String.data_append] using this
  exact itoa_injective (String.ext (List.append_cancel_left hd))

/-! ### `crdDirs` (main.go lines 145-179) and the mounting loop of `Validate`

One CRD source URL carries three pieces of observable data: the raw string
(used for `path.Base` and as the download address), the `url.Parse` outcome,
and the network behaviour under the archive probe.  The produced directory is
represented by its provenance: a cloned repository subtree, an unpacked
archive, or a single downloaded file. -/

/-- One CRD source URL with its parse and probe behaviour. -/
structure CrdURL where
  url : String
  parsed : Option UrlParts
  probe : ArchiveProbe

/-- A materialized schema directory, tagged by provenance. -/
inductive MaterializedDir where
  | repo (cloneURL branch subdir : String)
  | archive (url : String)
  | rawFile (fileName url : String)
deriving DecidableEq

/-- Translation of `parseGitURL` on a whole URL: parse, then decompose the
path (`parseGitPath`). -/
def parseGitURL (u : CrdURL) : Except String (String × String × String) :=
  match u.parsed with
  | none => .error "invalid URL"
  | some w => parseGitPath w.path

/-- The loop body of `crdDirs` for one URL: repository test, then repository
decomposition or archive probe, with the loop's error wrapping. -/
def materializeOne (u : CrdURL) : Except String MaterializedDir :=
  match isGitRepo u.parsed with
  | .error e => .error ("failed to check if the URL is a git repository: " ++ e)
  | .ok true =>
    match parseGitURL u with
    | .error e => .error ("failed to parse the git URL: " ++ e)
    | .ok (cloneURL, branch, subdir) => .ok (.repo cloneURL branch subdir)
  | .ok false =>
    match isAnArchive u.probe with
    | .error e => .error ("failed to check if the URL is an archive: " ++ e)
    | .ok true => .ok (.archive u.url)
    | .ok false => .ok (.rawFile (goPathBase u.url) u.url)

/-- Translation of `crdDirs`: materialize each source in input order,
aborting on the first failure with no partial result. -/
def crdDirs : List CrdURL → Except String (List MaterializedDir)
  | [] => .ok []
  | u :: us =>
    match materializeOne u with
    | .error e => .error e
    | .ok d =>
      match crdDirs us with
      | .error e => .error e
      | .ok ds => .ok (d :: ds)

/-- The mounting loop of `Validate` (lines 239-241): directory `i` is mounted
at `/crds/<i>`. -/
def crdMounts (ds : List MaterializedDir) : List (String × MaterializedDir) :=
  ds.enum.map (fun p => (mountPath p.1, p.2))

theorem crdDirs_ok_spec :
    ∀ (crds : List CrdURL) (ds : List MaterializedDir), crdDirs crds = .ok ds →
      ds.length = crds.length ∧
      ∀ i u, crds.get? i = some u → ∃ d, ds.get? i = some d ∧ materializeOne u = .ok d := by
  intro crds
  induction crds with
  | nil =>
    intro ds h
    simp only [crdDirs, Except.ok.injEq] at h
    subst h
    exact ⟨rfl, fun i u hu => by simp at hu⟩
  | cons u us ih =>
    intro ds h
    unfold crdDirs at h
    cases hm : materializeOne u with
    | error e => rw [hm] at h; simp at h
    | ok d =>
      rw [hm] at h
      cases hr : crdDirs us with
      | error e => rw [hr] at h; simp at h
      | ok ds0 =>
        rw [hr] at h
        simp only [Except.ok.injEq] at h
        subst h
        obtain ⟨hl, hg⟩ := ih ds0 hr
        refine ⟨by simp [hl], ?_⟩
        intro i u0 hu
        cases i with
        | zero =>
          simp only [List.get?_cons_zero, Option.some.injEq] at hu
          subst hu
          exact ⟨d, by simp, hm⟩
        | succ j =>
          simp only [List.get?_cons_succ] at hu
          obtain ⟨d0, hd0, hmo⟩ := hg j u0 hu
          exact ⟨d0, by simpa using hd0, hmo⟩

theorem crdDirs_error_of_mem :
    ∀ (crds : List CrdURL) (u : CrdURL), u ∈ crds →
      (∃ e, materializeOne u = .error e) → ∃ msg, crdDirs crds = .error msg := by
  intro crds
  induction crds with
  | nil => intro u h; simp at h
  | cons v vs ih =>
    rintro u hmem ⟨e, he⟩
    rcases List.mem_cons.mp hmem with rfl | hmem2
    · exact ⟨e, by simp [crdDirs, he]⟩
    · obtain ⟨msg, hrec⟩ := ih u hmem2 ⟨e, he⟩
      cases hm : materializeOne v with
      | error m2 => exact ⟨m2, by simp [crdDirs, hm]⟩
      | ok d => exact ⟨msg, by simp [crdDirs, hm, hrec]⟩

theorem crdMounts_get (ds : List MaterializedDir) (i : Nat) (d : MaterializedDir)
    (h : ds.get? i = some d) : (crdMounts ds).get? i = some (mountPath i, d) := by
  unfold crdMounts
  rw [List.get?_map]
  have henum : ds.enum.get? i = some (i, d) := by
    rw [List.get?_enum, h]
    rfl
  rw [henum]
  rfl

theorem crdMounts_paths_nodup (ds : List MaterializedDir) :
    ((crdMounts ds).map Prod.fst).Nodup := by
  unfold crdMounts
  rw [List.map_map]
  have hcomp : (Prod.fst ∘ fun p : Nat × MaterializedDir => (mountPath p.1, p.2)) =
      mountPath ∘ Prod.fst := rfl
  rw [hcomp, ← List.map_map, List.enum_map_fst]
  exact (List.nodup_range _).map mountPath_injective

/-- C8: on success, materialization yields exactly one directory per input
source in input order (the i-th directory is the materialization of the i-th
URL); the mounting loop places the i-th directory at the index-qualified path
`/crds/<i>`, and those mount paths are pairwise distinct, so directories of
distinct sources never collide; a failing source makes the whole
materialization fail with no partial directory list. -/
theorem c8_materialization_order_and_mounts (crds : List CrdURL) :
    (∀ ds, crdDirs crds = .ok ds →
      ds.length = crds.length ∧
      (∀ i u, crds.get? i = some u → ∃ d, ds.get? i = some d ∧ materializeOne u = .ok d) ∧
      (∀ i d, ds.get? i = some d → (crdMounts ds).get? i = some (mountPath i, d)) ∧
      ((crdMounts ds).map Prod.fst).Nodup) ∧
    ((∃ u ∈ crds, ∃ e, materializeOne u = .error e) → ∃ msg, crdDirs crds = .error msg) := by
  constructor
  · intro ds h
    obtain ⟨hl, hg⟩ := crdDirs_ok_spec crds ds h
    exact ⟨hl, hg, fun i d hd => crdMounts_get ds i d hd, crdMounts_paths_nodup ds⟩
  · rintro ⟨u, hmem, e, he⟩
    exact crdDirs_error_of_mem crds u hmem ⟨e, he⟩

/-- Witness for C8 at a concrete two-source run: a repository URL and a raw
file URL materialize in order and their mount paths do not collide. -/
theorem c8_materialization_order_and_mounts_witness :
    ((crdMounts [.repo "https://github.com/org/repo.git" "main" "config/crd",
        .rawFile "crd.yaml" "https://example.com/a/crd.yaml"]).map Prod.fst).Nodup :=
  ((c8_materialization_order_and_mounts
        [⟨"https://github.com/org/repo/tree/main/config/crd",
          some ⟨"github.com", "/org/repo/tree/main/config/crd"⟩, ⟨.error "unused"⟩⟩,
         ⟨"https://example.com/a/crd.yaml",
          some ⟨"example.com", "/a/crd.yaml"⟩, ⟨.ok (200, .matched false)⟩⟩]).1
      [.repo "https://github.com/org/repo.git" "main" "config/crd",
       .rawFile "crd.yaml" "https://example.com/a/crd.yaml"] rfl).2.2.2

/-! ### The environment-variable loop of `kubeConformImage` (main.go lines 62-68)

`Validate` calls `kubeConformImage` (which parses the `env` list) before
`crdDirs` (which performs all CRD fetching), so a malformed pair rejects the
run before any network or conversion work.  Binary and script provisioning in
`kubeConformImage` is container plumbing the spec places out of scope; the
observable result modelled here is the list of exported key/value pairs. -/

/-- The environment-variable loop: split each entry on `":"`; any entry that
does not split into exactly two parts is a configuration error; otherwise
export key/value. -/
def kubeConformEnv : List String → Except String (List (String × String))
  | [] => .ok []
  | e :: es =>
    let parts := goSplit ':' e
    if parts.length ≠ 2 then
      .error ("invalid flux variable format, must be in the form <key>:<value>: " ++ e)
    else
      match kubeConformEnv es with
      | .error msg => .error msg
      | .ok rest => .ok ((parts.getD 0 "", parts.getD 1 "") :: rest)

/-- A well-formed `key:value` pair as the code defines it: splitting on `":"`
yields exactly two parts. -/
def wellFormedEnvPair (e : String) : Prop := (goSplit ':' e).length = 2

/-- The exported pair of a well-formed entry. -/
def envPairOf (e : String) : String × String :=
  ((goSplit ':' e).getD 0 "", (goSplit ':' e).getD 1 "")

/-- The manifests argument of `Validate`: either an explicitly passed
directory or the module context directory `dag.Directory().Directory(".")`
substituted when the argument is nil. -/
inductive ManifestDir where
  | hostDir (label : String)
  | moduleDot
deriving DecidableEq

/-- The execution setup `Validate` assembles before running the script: the
exported environment, the CRD mounts, and the mounted manifests root. -/
structure RunSetup where
  envVars : List (String × String)
  mounts : List (String × MaterializedDir)
  manifests : ManifestDir
deriving DecidableEq

/-- Translation of the staging logic of `Validate` (main.go lines 224-245):
substitute `"."` for a nil manifests argument, build the image (environment
parsing) first, then materialize the CRD sources — wrapping their errors —
and mount each directory at its index-qualified path. -/
def Validate (manifests : Option ManifestDir) (env : List String)
    (crds : List CrdURL) : Except String RunSetup :=
  let m := match manifests with
    | none => ManifestDir.moduleDot
    | some d => d
  match kubeConformEnv env with
  | .error e => .error e
  | .ok kvs =>
    match crdDirs crds with
    | .error e => .error ("failed to create the schemas directories: " ++ e)
    | .ok ds => .ok ⟨kvs, crdMounts ds, m⟩

theorem kubeConformEnv_ok_of_wf :
    ∀ env : List String, (∀ e ∈ env, wellFormedEnvPair e) →
      kubeConformEnv env = .ok (env.map envPairOf) := by
  intro env
  induction env with
  | nil => intro _; rfl
  | cons e es ih =>
    intro hwf
    have he : (goSplit ':' e).length = 2 := hwf e (by simp)
    have hrec := ih (fun x hx => hwf x (by simp [hx]))
    simp [kubeConformEnv, he, hrec, envPairOf]

theorem kubeConformEnv_error_of_malformed :
    ∀ env : List String, (∃ e ∈ env, ¬ wellFormedEnvPair e) →
      ∃ msg, kubeConformEnv env = .error msg := by
  intro env
  induction env with
  | nil => rintro ⟨e, he, _⟩; simp at he
  | cons e es ih =>
    rintro ⟨x, hmem, hx⟩
    by_cases he : (goSplit ':' e).length = 2
    · rcases List.mem_cons.mp hmem with rfl | hmem2
      · exact absurd he hx
      · obtain ⟨msg, hrec⟩ := ih ⟨x, hmem2, hx⟩
        exact ⟨msg, by simp [kubeConformEnv, he, hrec]⟩
    · exact ⟨"invalid flux variable format, must be in the form <key>:<value>: " ++ e,
        by simp [kubeConformEnv, he]⟩

theorem kubeConformEnv_ok_shape :
    ∀ env kvs, kubeConformEnv env = .ok kvs → kvs = env.map envPairOf := by
  intro env
  induction env with
  | nil =>
    intro kvs h
    simp only [kubeConformEnv, Except.ok.injEq] at h
    simp [← h]
  | cons e es ih =>
    intro kvs h
    by_cases he : (goSplit ':' e).length = 2
    · simp only [kubeConformEnv, he, ne_eq, not_true_eq_false, if_false, ite_false] at h
      cases hr : kubeConformEnv es with
      | error msg => rw [hr] at h; simp at h
      | ok rest =>
        rw [hr] at h
        simp only [Except.ok.injEq] at h
        subst h
        simp [ih rest hr, envPairOf]
    · simp [kubeConformEnv, he] at h

theorem validate_error_of_env_error (manifests : Option ManifestDir)
    (env : List String) (crds : List CrdURL) (msg : String)
    (h : kubeConformEnv env = .error msg) :
    Validate manifests env crds = .error msg := by
  unfold Validate
  rw [h]

/-- C9: a malformed `key:value` entry makes the run fail with the
configuration error of the environment loop, before and independent of any
CRD materialization (the same error for every manifests argument and every
CRD source list); when every entry is well-formed the loop succeeds and
exports exactly the split key/value pairs, which any successful run carries
as its environment. -/
theorem c9_env_pairs (env : List String) :
    ((∃ e ∈ env, ¬ wellFormedEnvPair e) →
      ∃ msg, kubeConformEnv env = .error msg ∧
        ∀ manifests crds, Validate manifests env crds = .error msg) ∧
    ((∀ e ∈ env, wellFormedEnvPair e) →
      kubeConformEnv env = .ok (env.map envPairOf)) ∧
    (∀ manifests crds setup, Validate manifests env crds = .ok setup →
      setup.envVars = env.map envPairOf) := by
  refine ⟨?_, kubeConformEnv_ok_of_wf env, ?_⟩
  · intro hbad
    obtain ⟨msg, hmsg⟩ := kubeConformEnv_error_of_malformed env hbad
    exact ⟨msg, hmsg, fun manifests crds =>
      validate_error_of_env_error manifests env crds msg hmsg⟩
  · intro manifests crds setup h
    unfold Validate at h
    cases hk : kubeConformEnv env with
    | error msg => rw [hk] at h; simp at h
    | ok kvs =>
      rw [hk] at h
      cases hc : crdDirs crds with
      | error e => rw [hc] at h; simp at h
      | ok ds =>
        rw [hc] at h
        simp only [Except.ok.injEq] at h
        rw [← h]
        simpa using kubeConformEnv_ok_shape env kvs hk

/-- Witness for C9: a malformed entry (`"FOO"`, no colon) is rejected with
the configuration error whatever the CRD list; a well-formed list is exported
as key/value pairs. -/
theorem c9_env_pairs_witness :
    (∃ msg, kubeConformEnv ["FOO"] = .error msg ∧
      ∀ manifests crds, Validate manifests ["FOO"] crds = .error msg) ∧
    kubeConformEnv ["env:prod"] = .ok [("env", "prod")] :=
  ⟨(c9_env_pairs ["FOO"]).1 ⟨"FOO", by simp, by unfold wellFormedEnvPair; decide⟩,
    (c9_env_pairs ["env:prod"]).2.1 (by
      intro e he
      simp only [List.mem_singleton] at he
      subst he
      unfold wellFormedEnvPair
      decide)⟩

/-- C10: a nil manifests argument does not fail: `Validate` substitutes the
module's current directory `"."` and proceeds exactly as if that directory
had been passed explicitly — the two invocations are equal outright, and any
successful setup of the nil call mounts the substituted directory. -/
theorem c10_nil_manifests_default (env : List String) (crds : List CrdURL) :
    Validate none env crds = Validate (some ManifestDir.moduleDot) env crds ∧
    (∀ setup, Validate none env crds = .ok setup →
      setup.manifests = ManifestDir.moduleDot) := by
  refine ⟨rfl, ?_⟩
  intro setup h
  unfold Validate at h
  cases hk : kubeConformEnv env with
  | error msg => rw [hk] at h; simp at h
  | ok kvs =>
    rw [hk] at h
    cases hc : crdDirs crds with
    | error e => rw [hc] at h; simp at h
    | ok ds =>
      rw [hc] at h
      simp only [Except.ok.injEq] at h
      rw [← h]

/-! ### `find_manifests` (`run_kubeconform.sh` lines 291-313)

The function builds and evaluates
`find $dir -path 'E1' -prune -o … \( -name 'P1' -o … \) -type f -print`.
`find` walks the tree in pre-order; at each visited node it evaluates the
expression: if the node's full path matches any `-path` pattern, `-prune`
fires — a matching directory is not descended into, a matching file is not
printed (the `-o` chain short-circuits either way); otherwise the node is
printed when it is a regular file whose base name matches one of the `-name`
patterns.  `-path` patterns are shell globs in which `*` and `?` also match
`/` (find gives the slash no special treatment); the module's patterns use
no character classes, so the matcher models `*` and `?` only.  Paths are
kept as segment lists (`[dirArg, child, …]`) and rendered with `/` for the
pattern tests, matching the `$dir/sub/file` strings find produces. -/

/-- Fuel-bounded glob matcher over character lists: `*` matches any sequence
(slashes included), `?` any one character, all else literally.  Each step
consumes a pattern or a subject character, so `|pattern| + |subject| + 1`
fuel always suffices; the fuel makes the definition structurally recursive
and hence computable by the kernel. -/
def globMatchAux : Nat → List Char → List Char → Bool
  | 0, _, _ => false
  | _ + 1, [], [] => true
  | _ + 1, [], _ :: _ => false
  | fuel + 1, '*' :: ps, [] => globMatchAux fuel ps []
  | fuel + 1, '*' :: ps, c :: cs =>
    globMatchAux fuel ps (c :: cs) || globMatchAux fuel ('*' :: ps) cs
  | _ + 1, '?' :: _, [] => false
  | fuel + 1, '?' :: ps, _ :: cs => globMatchAux fuel ps cs
  | _ + 1, _ :: _, [] => false
  | fuel + 1, p :: ps, c :: cs => (p == c) && globMatchAux fuel ps cs

/-- Shell glob match of a whole string against a pattern. -/
def globMatch (pattern s : String) : Bool :=
  globMatchAux (pattern.data.length + s.data.length + 1) pattern.data s.data

/-- A node of the manifests tree: a regular file or a directory with an
ordered child list. -/
inductive FSTree where
  | file (name : String)
  | dir (name : String) (children : List FSTree)

/-- The base name of a node. -/
def FSTree.name : FSTree → String
  | .file n => n
  | .dir n _ => n

/-- The path string find prints for a segment list. -/
def renderPath (segs : List String) : String := goJoin "/" segs

/-- Whether a visited path matches some `-path` exclude pattern (the
`-path 'E' -prune -o` chain). -/
def excludedPath (excls : List String) (segs : List String) : Bool :=
  excls.any (fun e => globMatch e (renderPath segs))

/-- Whether a base name matches some `-name` inclusion pattern (the ORed
`\( -name 'P1' -o … \)` group). -/
def matchesName (pats : List String) (n : String) : Bool :=
  pats.any (fun pat => globMatch pat n)

mutual
/-- The find walk at one node with path `p` (the node's own full path,
segment by segment): an excluded node is pruned — nothing printed, nothing
descended; an unexcluded file prints its path when its name matches an
inclusion pattern (`-type f` keeps directories from printing); an unexcluded
directory contributes its children in order, each child visited at
`p ++ [child name]`. -/
def findVisit (excls pats : List String) : FSTree → List String → List (List String)
  | .file n, p =>
    if excludedPath excls p then []
    else if matchesName pats n then [p] else []
  | .dir _ ch, p =>
    if excludedPath excls p then [] else findForest excls pats ch p

/-- The find walk over a directory's children, in order. -/
def findForest (excls pats : List String) : List FSTree → List String → List (List String)
  | [], _ => []
  | t :: ts, p =>
    findVisit excls pats t (p ++ [t.name]) ++ findForest excls pats ts p
end

/-- The whole `find_manifests` run: walk the tree rooted at the `$dir`
argument; the root's printed path is the argument itself. -/
def findManifests (excls pats : List String) (dirArg : String) (t : FSTree) :
    List (List String) :=
  findVisit excls pats t [dirArg]

theorem prefix_split (p r q : List String) (x : String) (hpr : p <+: r)
    (hrq : r <+: q) (hpq : (p ++ [x]) <+: q) : r = p ∨ (p ++ [x]) <+: r := by
  obtain ⟨s, hs⟩ := hpr
  cases s with
  | nil => left; simpa using hs.symm
  | cons y s2 =>
    right
    rcases List.prefix_or_prefix_of_prefix hrq hpq with h | h
    · have hlen : (p ++ [x]).length ≤ r.length := by
        rw [← hs]
        simp
      rw [h.eq_of_length (Nat.le_antisymm h.length_le hlen)]
    · exact h

mutual
theorem findVisit_extends (excls pats : List String) :
    ∀ (t : FSTree) (p q : List String), q ∈ findVisit excls pats t p → p <+: q
  | .file n, p, q, hq => by
    by_cases hex : excludedPath excls p = true
    · simp [findVisit, hex] at hq
    · by_cases hm : matchesName pats n = true
      · have hqp : q = p := by simpa [findVisit, hex, hm] using hq
        rw [hqp]
      · simp [findVisit, hex, hm] at hq
  | .dir _ ch, p, q, hq => by
    by_cases hex : excludedPath excls p = true
    · simp [findVisit, hex] at hq
    · have hq2 : q ∈ findForest excls pats ch p := by simpa [findVisit, hex] using hq
      obtain ⟨x, hx⟩ := findForest_extends excls pats ch p q hq2
      exact List.IsPrefix.trans (List.prefix_append p [x]) hx

theorem findForest_extends (excls pats : List String) :
    ∀ (ts : List FSTree) (p q : List String), q ∈ findForest excls pats ts p →
      ∃ x, (p ++ [x]) <+: q
  | [], p, q, hq => by simp [findForest] at hq
  | t :: ts, p, q, hq => by
    simp only [findForest, List.mem_append] at hq
    rcases hq with h | h
    · exact ⟨t.name, findVisit_extends excls pats t (p ++ [t.name]) q h⟩
    · exact findForest_extends excls pats ts p q h
end

mutual
theorem findVisit_no_excluded (excls pats : List String) :
    ∀ (t : FSTree) (p q : List String), q ∈ findVisit excls pats t p →
      ∀ r, p <+: r → r <+: q → excludedPath excls r = false
  | .file n, p, q, hq => by
    by_cases hex : excludedPath excls p = true
    · simp [findVisit, hex] at hq
    · intro r hpr hrq
      have hq2 : q = p := by
        by_cases hm : matchesName pats n = true
        · simpa [findVisit, hex, hm] using hq
        · simp [findVisit, hex, hm] at hq
      rw [hq2] at hrq
      have hr : r = p := hrq.eq_of_length (Nat.le_antisymm hrq.length_le hpr.length_le)
      rw [hr]
      simpa using hex
  | .dir _ ch, p, q, hq => by
    by_cases hex : excludedPath excls p = true
    · simp [findVisit, hex] at hq
    · intro r hpr hrq
      have hq2 : q ∈ findForest excls pats ch p := by simpa [findVisit, hex] using hq
      exact findForest_no_excluded excls pats ch p q (by simpa using hex) hq2 r hpr hrq

theorem findForest_no_excluded (excls pats : List String) :
    ∀ (ts : List FSTree) (p q : List String), excludedPath excls p = false →
      q ∈ findForest excls pats ts p →
      ∀ r, p <+: r → r <+: q → excludedPath excls r = false
  | [], p, q, hp, hq => by simp [findForest] at hq
  | t :: ts, p, q, hp, hq => by
    simp only [findForest, List.mem_append] at hq
    intro r hpr hrq
    rcases hq with h | h
    · have hext : (p ++ [t.name]) <+: q := findVisit_extends excls pats t (p ++ [t.name]) q h
      rcases prefix_split p r q t.name hpr hrq hext with rfl | hstep
      · exact hp
      · exact findVisit_no_excluded excls pats t (p ++ [t.name]) q h r hstep hrq
    · exact findForest_no_excluded excls pats ts p q hp h r hpr hrq
end

/-- C7: exclusion prunes whole subtrees.  A node whose path matches an
exclude pattern contributes nothing — a matching directory is never descended
into; and every path the walk returns, together with every enclosing
directory path from the start of the walk down to it, fails every exclude
pattern: a file under an excluded subtree is never returned even when its
name matches the inclusion patterns. -/
theorem c7_excluded_subtrees_pruned (excls pats : List String) (t : FSTree)
    (p : List String) :
    (excludedPath excls p = true → findVisit excls pats t p = []) ∧
    (∀ q ∈ findVisit excls pats t p, ∀ r, p <+: r → r <+: q →
      excludedPath excls r = false) := by
  constructor
  · intro hex
    cases t with
    | file n => simp [findVisit, hex]
    | dir n ch => simp [findVisit, hex]
  · intro q hq r hpr hrq
    exact findVisit_no_excluded excls pats t p q hq r hpr hrq

/-- Witness for C7 at a concrete tree: the walk of the excluded directory
`./sub` returns nothing, and the returned file `./y.yaml` of the full walk —
as the pruning theorem guarantees — matches no exclude pattern. -/
theorem c7_excluded_subtrees_pruned_witness :
    findVisit ["./sub"] ["*.yaml"] (.dir "sub" [.file "x.yaml"]) [".", "sub"] = [] ∧
    excludedPath ["./sub"] [".", "y.yaml"] = false :=
  ⟨(c7_excluded_subtrees_pruned ["./sub"] ["*.yaml"]
        (.dir "sub" [.file "x.yaml"]) [".", "sub"]).1 (by decide),
    (c7_excluded_subtrees_pruned ["./sub"] ["*.yaml"]
        (.dir "." [.dir "sub" [.file "x.yaml"], .file "y.yaml"]) ["."]).2
      [".", "y.yaml"] (by decide) [".", "y.yaml"] (by decide) (by decide)⟩
